import Mathlib

/-!
Shallow embedding of src/generate.py (HAVEN2LLaVA dataset builder).

The network is modelled by a function assigning to each attempt index the
HTTP response that attempt receives; jitter is modelled by a function
giving the random draw of each attempt.  Delays are rationals.
-/

/-- One HTTP attempt outcome: a status code with a response body (bytes as
a list of naturals), a requests-level exception, or any other exception. -/
inductive HttpResponse where
  | status (code : Nat) (body : List Nat)
  | requestException
  | otherException
deriving DecidableEq

/-- Result of a whole fetch call: the returned value (None or body bytes),
the number of attempts made, and the list of sleep durations performed. -/
structure FetchResult where
  content : Option (List Nat)
  attempts : Nat
  sleeps : List ℚ
deriving DecidableEq

/-- The retry loop of fetch_ipfs_image_exponential_backoff, by recursion on
the remaining attempt budget.  attemptsMade counts attempts already made, so
the Python variable attempt equals attemptsMade + 1, and the Python guard
attempt == max_retries corresponds to remaining = 0 after the decrement. -/
def fetchAux (responses : Nat → HttpResponse) (jitter : Nat → ℚ)
    (base_delay max_delay : ℚ) : Nat → Nat → FetchResult
  | 0, attemptsMade => ⟨none, attemptsMade, []⟩
  | remaining + 1, attemptsMade =>
    match responses attemptsMade with
    | .status sc body =>
      if sc = 200 then ⟨some body, attemptsMade + 1, []⟩
      else if sc = 404 ∨ sc = 403 then ⟨none, attemptsMade + 1, []⟩
      else if sc = 429 ∨ 500 ≤ sc then
        if remaining = 0 then ⟨none, attemptsMade + 1, []⟩
        else
          let delay := min max_delay (base_delay * 2 ^ attemptsMade)
          let rest := fetchAux responses jitter base_delay max_delay remaining (attemptsMade + 1)
          ⟨rest.content, rest.attempts, (delay + jitter attemptsMade) :: rest.sleeps⟩
      else ⟨none, attemptsMade + 1, []⟩
    | .requestException =>
      if remaining = 0 then ⟨none, attemptsMade + 1, []⟩
      else
        let delay := min max_delay (base_delay * 2 ^ attemptsMade)
        let rest := fetchAux responses jitter base_delay max_delay remaining (attemptsMade + 1)
        ⟨rest.content, rest.attempts, (delay + jitter attemptsMade) :: rest.sleeps⟩
    | .otherException => ⟨none, attemptsMade + 1, []⟩

/-- fetch_ipfs_image_exponential_backoff from src/generate.py.  The URL is
built from the cid exactly as in the source; the network behaviour behind
requests.get is abstracted by the responses environment. -/
def fetch_ipfs_image_exponential_backoff (responses : Nat → HttpResponse)
    (jitter : Nat → ℚ) (cid : String) (max_retries : Nat)
    (base_delay max_delay : ℚ) : FetchResult :=
  let _url := "https://premium.w3ipfs.storage/ipfs/" ++ cid
  fetchAux responses jitter base_delay max_delay max_retries 0

/-- A response that the retry policy treats as transient by status code:
HTTP 429 or any 5xx. -/
def transientStatus : HttpResponse → Prop
  | .status sc _ => sc = 429 ∨ 500 ≤ sc
  | _ => False

/-- Concrete all-503 response environment (witness material). -/
def resp503 : Nat → HttpResponse := fun _ => .status 503 []

/-- Concrete zero jitter (witness material). -/
def jitter0 : Nat → ℚ := fun _ => 0

/-- Concrete jitter of one half, a value inside the interval from 0 to 1
(witness material). -/
def jitterHalf : Nat → ℚ := fun _ => 1 / 2

/-- Concrete response environment giving 500, 500, then 200 with body bytes
55 (witness material for the backoff schedule). -/
def c4resp : Nat → HttpResponse := fun i =>
  if i < 2 then .status 500 [] else .status 200 [55]

/-- Concrete all-404 response environment (witness material). -/
def resp404 : Nat → HttpResponse := fun _ => .status 404 []

/-- Concrete environment answering 200 with a one-byte body (witness
material). -/
def respOk : Nat → HttpResponse := fun _ => .status 200 [1]

/-- Concrete environment answering 200 with an empty body (witness
material). -/
def respEmpty200 : Nat → HttpResponse := fun _ => .status 200 []

/-- Candidate filename tried by save_image at a given counter value:
counter 0 is the initial cid.jpg, counter n for positive n is cid_n.jpg. -/
def candidateName (cid : String) (counter : Nat) : String :=
  if counter = 0 then cid ++ ".jpg" else cid ++ "_" ++ Nat.repr counter ++ ".jpg"

/-- The conflict-resolution while loop of save_image: try candidate names in
order until one is absent from the image directory.  The source loop always
terminates because the directory is finite; fuel existing.length + 1 attempts
at least one more candidate than there are files. -/
def save_image_aux (existing : List String) (cid : String) : Nat → Nat → String
  | 0, counter => candidateName cid counter
  | fuel + 1, counter =>
    if candidateName cid counter ∈ existing then
      save_image_aux existing cid fuel (counter + 1)
    else candidateName cid counter

/-- save_image from src/generate.py at the level of filenames inside
IMAGE_FOLDER: existing is the set of filenames already present; the returned
value is the filename chosen for the new file. -/
def save_image (existing : List String) (cid : String) : String :=
  save_image_aux existing cid (existing.length + 1) 0

/-- One conversation turn of the LLaVA JSON schema. -/
structure ConvTurn where
  «from» : String
  value : String
deriving DecidableEq

/-- One entry of the output JSON array. -/
structure OutputRecord where
  id : String
  image : String
  conversations : List ConvTurn
deriving DecidableEq

/-- One row of the SQL query result: a thumbnail cid and its actions ordered
by descending confidence. -/
structure SourceRecord where
  thumbnail_cid : String
  actions : List String
deriving DecidableEq

/-- The conversation-building block of process_group: primary question and
answer from the first action, then, when secondary actions exist, a
follow-up whose answer joins at most three of them. -/
def buildConversations (actions : List String) : List ConvTurn :=
  match actions with
  | [] => []
  | main_action :: secondary_actions =>
    [⟨"human", "<image>\nWhat\x27s the most certain action in this scene?"⟩,
     ⟨"gpt", main_action⟩] ++
    (if secondary_actions = [] then []
     else
       [⟨"human", "What other high-probability actions exist?"⟩,
        ⟨"gpt", String.intercalate ", " (secondary_actions.take 3)
                  ++ " (lower confidence)"⟩])

/-- process_group from src/generate.py: fetch the image with the default
retry parameters, treat a None or empty result as failure (Python falsiness
of image_data), otherwise save the image and assemble the record.  Returns
the produced record (if any) together with the updated image directory. -/
def process_group (responses : Nat → HttpResponse) (jitter : Nat → ℚ)
    (existingFiles : List String) (cid : String) (actions : List String) :
    Option OutputRecord × List String :=
  match (fetch_ipfs_image_exponential_backoff responses jitter cid 10 2 30).content with
  | none => (none, existingFiles)
  | some image_data =>
    if image_data = [] then (none, existingFiles)
    else
      let filename := save_image existingFiles cid
      (some ⟨cid, filename, buildConversations actions⟩,
       existingFiles ++ [filename])

/-- A write to the output document path: either a plain direct open and
dump, or a dump to a temporary file followed by an atomic rename over the
path. -/
inductive WriteEvent where
  | direct (content : List OutputRecord)
  | atomicReplace (content : List OutputRecord)
deriving DecidableEq

/-- Whether a write reaches the output path only through the atomic
rename. -/
def WriteEvent.isAtomic : WriteEvent → Bool
  | .direct _ => false
  | .atomicReplace _ => true

/-- What future.result() yields for one submitted record: an exception
(caught and logged by the drain loop) or the value process_group returned. -/
abbrev FutureOutcome := Except Unit (Option OutputRecord)

/-- The as_completed drain loop: a successful result is appended to the
dataset and the whole dataset is snapshotted through a temp file plus atomic
rename; a None result or an exception only advances the progress bar. -/
def drainLoop (dataset : List OutputRecord) :
    List (SourceRecord × FutureOutcome) → List OutputRecord × List WriteEvent
  | [] => (dataset, [])
  | (_, res) :: rest =>
    match res with
    | .ok (some r) =>
      let ds := dataset ++ [r]
      let next := drainLoop ds rest
      (next.1, WriteEvent.atomicReplace ds :: next.2)
    | .ok none => drainLoop dataset rest
    | .error _ => drainLoop dataset rest

/-- The identifiers already present in a loaded dataset. -/
def existingIds (dataset : List OutputRecord) : List String := dataset.map (·.id)

/-- The future_to_cid construction: a row whose cid is already present is
not submitted to the pool. -/
def submittedRecords (existing_cids : List String) (rows : List SourceRecord) :
    List SourceRecord :=
  rows.filter (fun r => decide (r.thumbnail_cid ∉ existing_cids))

/-- The successfully assembled records of a completion sequence, in
completion order. -/
def successResults (comps : List (SourceRecord × FutureOutcome)) : List OutputRecord :=
  comps.filterMap (fun c => match c.2 with | .ok (some r) => some r | _ => none)

/-- The main execution flow of src/generate.py after the query, JSON
strategy: load the prior document if present, write an empty array directly
to the output path when no identifiers are present yet, drain the submitted
futures in completion order (order), snapshot after each success, and
finally write the complete dataset directly to the output path.  The pair
returned is the final in-memory dataset and the totally ordered sequence of
writes to the output path. -/
def runJob (existingFile : Option (List OutputRecord))
    (order : List SourceRecord) (result : SourceRecord → FutureOutcome) :
    List OutputRecord × List WriteEvent :=
  let dataset := existingFile.getD []
  let existing_cids := existingIds dataset
  let initEvents : List WriteEvent :=
    if existing_cids = [] then [WriteEvent.direct []] else []
  let drained := drainLoop dataset (order.map (fun r => (r, result r)))
  (drained.1, initEvents ++ drained.2 ++ [WriteEvent.direct drained.1])

/-- Prior dataset containing identifier X (witness material). -/
def dsX : List OutputRecord := [⟨"X", "X.jpg", []⟩]

/-- Source row for the already-present identifier X (witness material). -/
def rowX : SourceRecord := ⟨"X", ["a"]⟩

/-- Source row for the new identifier Y (witness material). -/
def rowY : SourceRecord := ⟨"Y", ["b"]⟩

/-- Assembled record for identifier Y (witness material). -/
def recY : OutputRecord := ⟨"Y", "Y.jpg", []⟩

/-- Result environment where fetching Y succeeds and everything else fails
(witness material). -/
def resultXY : SourceRecord → FutureOutcome := fun r =>
  if r.thumbnail_cid = "Y" then .ok (some recY) else .ok none

/-- Five source rows with distinct cids (witness material). -/
def rows5 : List SourceRecord :=
  [⟨"a", ["x"]⟩, ⟨"b", ["x"]⟩, ⟨"c", ["x"]⟩, ⟨"d", ["x"]⟩, ⟨"e", ["x"]⟩]

/-- The row among rows5 whose fetch fails (witness material). -/
def rowC : SourceRecord := ⟨"c", ["x"]⟩

/-- Result environment where the fetch for cid c fails and every other cid
succeeds with a record carrying its own cid (witness material). -/
def result5 : SourceRecord → FutureOutcome := fun r =>
  if r.thumbnail_cid = "c" then .ok none
  else .ok (some ⟨r.thumbnail_cid, r.thumbnail_cid ++ ".jpg", []⟩)

/-- Decimal digit characters of a natural number, most significant first,
by well-founded recursion on division by 10; reference model for reasoning
about the numeric suffixes save_image builds with Nat.repr. -/
def digitsRec (n : Nat) : List Char :=
  if h : n < 10 then [Nat.digitChar n]
  else digitsRec (n / 10) ++ [Nat.digitChar (n % 10)]
decreasing_by exact Nat.div_lt_self (by omega) (by norm_num)

/-- Helper: the retry loop under uniformly transient statuses consumes the
whole remaining budget and yields no content. -/
lemma fetchAux_transient (responses : Nat → HttpResponse) (jitter : Nat → ℚ)
    (bd md : ℚ) :
    ∀ r a, (∀ i, a ≤ i → i < a + r → transientStatus (responses i)) →
      (fetchAux responses jitter bd md r a).content = none ∧
      (fetchAux responses jitter bd md r a).attempts = a + r := by
  intro r
  induction r with
  | zero => intro a _; exact ⟨rfl, rfl⟩
  | succ n ih =>
    intro a h
    have ha : transientStatus (responses a) := h a le_rfl (by omega)
    cases hr : responses a with
    | status sc body =>
      rw [hr] at ha
      have ha2 : sc = 429 ∨ 500 ≤ sc := ha
      have h200 : ¬ sc = 200 := by rcases ha2 with h1 | h1 <;> omega
      have h44 : ¬ (sc = 404 ∨ sc = 403) := by rcases ha2 with h1 | h1 <;> omega
      simp only [fetchAux, hr]
      rw [if_neg h200, if_neg h44, if_pos ha2]
      cases hn : n with
      | zero => simp
      | succ m =>
        have ihr := ih (a + 1) (by intro i h1 h2; exact h i (by omega) (by omega))
        rw [hn] at ihr
        rw [if_neg (Nat.succ_ne_zero m)]
        refine ⟨ihr.1, ?_⟩
        show (fetchAux responses jitter bd md (m + 1) (a + 1)).attempts = _
        rw [ihr.2]
        omega
    | requestException => rw [hr] at ha; exact absurd ha (by simp [transientStatus])
    | otherException => rw [hr] at ha; exact absurd ha (by simp [transientStatus])

/-- C1: if every attempt receives a transient status (429 or 5xx), the
fetcher returns no bytes and makes exactly max_retries attempts, never
max_retries + 1. -/
theorem fetch_exhausts_exactly_max_retries (responses : Nat → HttpResponse)
    (jitter : Nat → ℚ) (cid : String) (max_retries : Nat) (bd md : ℚ)
    (h : ∀ i, i < max_retries → transientStatus (responses i)) :
    (fetch_ipfs_image_exponential_backoff responses jitter cid max_retries bd md).content
        = none ∧
    (fetch_ipfs_image_exponential_backoff responses jitter cid max_retries bd md).attempts
        = max_retries := by
  have := fetchAux_transient responses jitter bd md max_retries 0
    (by intro i _ h2; exact h i (by omega))
  refine ⟨this.1, ?_⟩
  have h2 := this.2
  rw [Nat.zero_add] at h2
  exact h2

/-- Witness for C1 at a concrete all-503 environment with max_retries = 3. -/
theorem fetch_exhausts_exactly_max_retries_witness :
    (∀ i, i < 3 → transientStatus (resp503 i)) ∧
    ((fetch_ipfs_image_exponential_backoff resp503 jitter0 "cid" 3 2 30).content = none ∧
     (fetch_ipfs_image_exponential_backoff resp503 jitter0 "cid" 3 2 30).attempts = 3) :=
  ⟨fun _ _ => Or.inr (by norm_num),
   fetch_exhausts_exactly_max_retries resp503 jitter0 "cid" 3 2 30
     (fun _ _ => Or.inr (by norm_num))⟩

/-- Helper: the k-th sleep performed by the retry loop (0-based, counted
from start attempt a) is exactly min max_delay (base_delay * 2 ^ (a + k))
plus the jitter drawn at attempt a + k + 1. -/
lemma fetchAux_sleep_values (responses : Nat → HttpResponse) (jitter : Nat → ℚ)
    (bd md : ℚ) :
    ∀ r a k x, (fetchAux responses jitter bd md r a).sleeps.get? k = some x →
      x = min md (bd * 2 ^ (a + k)) + jitter (a + k) := by
  intro r
  induction r with
  | zero => intro a k x h; simp [fetchAux] at h
  | succ n ih =>
    intro a k x h
    cases hr : responses a with
    | status sc body =>
      simp only [fetchAux, hr] at h
      by_cases h200 : sc = 200
      · rw [if_pos h200] at h; simp at h
      · rw [if_neg h200] at h
        by_cases h44 : sc = 404 ∨ sc = 403
        · rw [if_pos h44] at h; simp at h
        · rw [if_neg h44] at h
          by_cases h5 : sc = 429 ∨ 500 ≤ sc
          · rw [if_pos h5] at h
            by_cases hn : n = 0
            · rw [if_pos hn] at h; simp at h
            · rw [if_neg hn] at h
              simp only at h
              cases k with
              | zero =>
                rw [List.get?_cons_zero] at h
                rw [Nat.add_zero]
                exact (Option.some_inj.mp h).symm
              | succ k2 =>
                rw [List.get?_cons_succ] at h
                have := ih (a + 1) k2 x h
                have harith : a + (k2 + 1) = a + 1 + k2 := by omega
                rw [harith]
                exact this
          · rw [if_neg h5] at h; simp at h
    | requestException =>
      simp only [fetchAux, hr] at h
      by_cases hn : n = 0
      · rw [if_pos hn] at h; simp at h
      · rw [if_neg hn] at h
        simp only at h
        cases k with
        | zero =>
          rw [List.get?_cons_zero] at h
          rw [Nat.add_zero]
          exact (Option.some_inj.mp h).symm
        | succ k2 =>
          rw [List.get?_cons_succ] at h
          have := ih (a + 1) k2 x h
          have harith : a + (k2 + 1) = a + 1 + k2 := by omega
          rw [harith]
          exact this
    | otherException =>
      simp only [fetchAux, hr] at h
      simp at h

/-- C4: general sleep formula — whenever jitter draws lie in the interval
from 0 (inclusive) to 1 (exclusive), every sleep performed by the fetcher
equals min max_delay (base_delay * 2 ^ (attempt - 1)) plus the jitter of that attempt; and on the concrete response sequence 500, 500, 200 with the default
parameters the fetcher makes exactly 3 attempts, returns the body bytes, and
sleeps exactly twice with delays base_delay * 1 + jitter then
base_delay * 2 + jitter, each bounded above by max_delay + 1. -/
theorem fetch_backoff_sleep_schedule (jitter : Nat → ℚ)
    (hj : ∀ i, 0 ≤ jitter i ∧ jitter i < 1) :
    (∀ (responses : Nat → HttpResponse) (cid : String) (mr : Nat) (bd md : ℚ)
        (k : Nat) (x : ℚ),
        (fetch_ipfs_image_exponential_backoff responses jitter cid mr bd md).sleeps.get? k
            = some x →
        x = min md (bd * 2 ^ k) + jitter k) ∧
    (fetch_ipfs_image_exponential_backoff c4resp jitter "cid" 10 2 30).content = some [55] ∧
    (fetch_ipfs_image_exponential_backoff c4resp jitter "cid" 10 2 30).attempts = 3 ∧
    (fetch_ipfs_image_exponential_backoff c4resp jitter "cid" 10 2 30).sleeps
        = [2 * 1 + jitter 0, 2 * 2 + jitter 1] ∧
    (∀ x ∈ (fetch_ipfs_image_exponential_backoff c4resp jitter "cid" 10 2 30).sleeps,
        x ≤ 30 + 1) := by
  have hsl : (fetch_ipfs_image_exponential_backoff c4resp jitter "cid" 10 2 30).sleeps
      = [2 * 1 + jitter 0, 2 * 2 + jitter 1] := by
    show (fetchAux c4resp jitter 2 30 10 0).sleeps = _
    norm_num [fetchAux, c4resp, min_def]
  refine ⟨?_, ?_, ?_, hsl, ?_⟩
  · intro responses cid mr bd md k x h
    have := fetchAux_sleep_values responses jitter bd md mr 0 k x h
    rwa [Nat.zero_add] at this
  · show (fetchAux c4resp jitter 2 30 10 0).content = some [55]
    norm_num [fetchAux, c4resp]
  · show (fetchAux c4resp jitter 2 30 10 0).attempts = 3
    norm_num [fetchAux, c4resp]
  · intro x hx
    rw [hsl] at hx
    simp only [List.mem_cons, List.not_mem_nil, or_false] at hx
    rcases hx with hx | hx
    · have := (hj 0).2; rw [hx]; linarith
    · have := (hj 1).2; rw [hx]; linarith

/-- Witness for C4: jitter identically one half satisfies the hypothesis,
and the theorem applied there gives the concrete three-attempt run. -/
theorem fetch_backoff_sleep_schedule_witness :
    (∀ i, 0 ≤ jitterHalf i ∧ jitterHalf i < 1) ∧
    (fetch_ipfs_image_exponential_backoff c4resp jitterHalf "cid" 10 2 30).attempts = 3 :=
  ⟨fun _ => ⟨by norm_num [jitterHalf], by norm_num [jitterHalf]⟩,
   (fetch_backoff_sleep_schedule jitterHalf
      (fun _ => ⟨by norm_num [jitterHalf], by norm_num [jitterHalf]⟩)).2.2.1⟩

/-- C5: any first-attempt status other than 200, 429 and the 5xx range —
including 404 and 403 — makes the fetcher return no bytes after exactly one
attempt, with no sleeps and no retries. -/
theorem fetch_permanent_status_single_attempt (responses : Nat → HttpResponse)
    (jitter : Nat → ℚ) (cid : String) (mr : Nat) (bd md : ℚ) (sc : Nat) (body : List Nat)
    (hmr : 0 < mr) (h0 : responses 0 = .status sc body)
    (h200 : sc ≠ 200) (h429 : sc ≠ 429) (h5 : sc < 500) :
    fetch_ipfs_image_exponential_backoff responses jitter cid mr bd md
      = ⟨none, 1, []⟩ := by
  cases mr with
  | zero => omega
  | succ m =>
    have h5n : ¬ (sc = 429 ∨ 500 ≤ sc) := by omega
    show fetchAux responses jitter bd md (m + 1) 0 = ⟨none, 1, []⟩
    simp only [fetchAux, h0]
    rw [if_neg h200]
    by_cases h44 : sc = 404 ∨ sc = 403
    · rw [if_pos h44]
    · rw [if_neg h44, if_neg h5n]

/-- Witness for C5 at a concrete all-404 environment. -/
theorem fetch_permanent_status_single_attempt_witness :
    ((0 : Nat) < 10 ∧ resp404 0 = .status 404 [] ∧ (404 : Nat) ≠ 200 ∧
      (404 : Nat) ≠ 429 ∧ (404 : Nat) < 500) ∧
    fetch_ipfs_image_exponential_backoff resp404 jitter0 "cid" 10 2 30
      = ⟨none, 1, []⟩ :=
  ⟨⟨by norm_num, rfl, by norm_num, by norm_num, by norm_num⟩,
   fetch_permanent_status_single_attempt resp404 jitter0 "cid" 10 2 30 404 []
     (by norm_num) rfl (by norm_num) (by norm_num) (by norm_num)⟩

/-- Helper: the drain loop appends exactly the successful results, in
completion order, to the dataset it starts from. -/
lemma drainLoop_fst (comps : List (SourceRecord × FutureOutcome)) :
    ∀ ds, (drainLoop ds comps).1 = ds ++ successResults comps := by
  induction comps with
  | nil => intro ds; simp [drainLoop, successResults]
  | cons c rest ih =>
    intro ds
    obtain ⟨r, res⟩ := c
    cases res with
    | error e =>
      simp only [drainLoop]
      rw [ih ds]
      simp [successResults]
    | ok o =>
      cases o with
      | none =>
        simp only [drainLoop]
        rw [ih ds]
        simp [successResults]
      | some rec =>
        simp only [drainLoop]
        rw [ih (ds ++ [rec])]
        simp [successResults]

/-- Helper: the writes performed by the drain loop are exactly one atomic
snapshot per success, the i-th carrying the starting dataset extended by the
first i + 1 successes. -/
lemma drainLoop_snd (comps : List (SourceRecord × FutureOutcome)) :
    ∀ ds, (drainLoop ds comps).2 =
      (List.range (successResults comps).length).map
        (fun i => WriteEvent.atomicReplace (ds ++ (successResults comps).take (i + 1))) := by
  induction comps with
  | nil => intro ds; simp [drainLoop, successResults]
  | cons c rest ih =>
    intro ds
    obtain ⟨r, res⟩ := c
    cases res with
    | error e =>
      simp only [drainLoop]
      rw [ih ds]
      simp [successResults]
    | ok o =>
      cases o with
      | none =>
        simp only [drainLoop]
        rw [ih ds]
        simp [successResults]
      | some rec =>
        simp only [drainLoop]
        rw [ih (ds ++ [rec])]
        have hsr : successResults ((r, Except.ok (some rec)) :: rest)
            = rec :: successResults rest := by simp [successResults]
        rw [hsr, List.length_cons, List.range_succ_eq_map, List.map_cons, List.map_map]
        have htail : (List.range (successResults rest).length).map
            (fun i => WriteEvent.atomicReplace ((ds ++ [rec]) ++ (successResults rest).take (i + 1)))
            = (List.range (successResults rest).length).map
              ((fun i => WriteEvent.atomicReplace
                  (ds ++ ((rec :: successResults rest).take (i + 1)))) ∘ Nat.succ) := by
          apply List.map_congr_left
          intro i _
          simp [List.take_succ_cons]
        rw [← htail]
        simp [List.take_succ_cons]

/-- C2 counterexample: the final write after the drain loop opens the output
path directly (no temp file, no atomic rename), so not every write to the
output path is an atomic replace; shown on a resumed run with one prior
record and nothing to fetch. -/
theorem json_output_write_not_always_atomic :
    ¬ (∀ e ∈ (runJob (some dsX) [] resultXY).2, e.isAtomic = true) := by
  decide

/-- C2 amended: the writes to the output path, in order, are an initial
direct write of an empty array when no identifiers are present yet, then one
atomic temp-file-and-rename snapshot per successful assembly whose content
is the prior dataset extended by all successes so far (so each snapshot is a
complete document), and finally one direct write of the complete dataset. -/
theorem json_write_sequence_characterization
    (existingFile : Option (List OutputRecord)) (order : List SourceRecord)
    (result : SourceRecord → FutureOutcome) :
    (runJob existingFile order result).2 =
      (if existingIds (existingFile.getD []) = [] then [WriteEvent.direct []] else [])
      ++ (List.range (successResults (order.map (fun r => (r, result r)))).length).map
           (fun i => WriteEvent.atomicReplace
             ((existingFile.getD []) ++
               (successResults (order.map (fun r => (r, result r)))).take (i + 1)))
      ++ [WriteEvent.direct
            ((existingFile.getD []) ++ successResults (order.map (fun r => (r, result r))))] := by
  simp only [runJob]
  rw [drainLoop_snd, drainLoop_fst]

/-- C3: with a prior document containing identifier X, a source of the rows
for X and a new Y submits only Y to the pool; when the fetch of Y succeeds
the final dataset is exactly the prior one with the record of Y appended, so every
prior record survives unchanged and no already-present identifier is
persisted twice. -/
theorem resume_skips_existing_and_appends_new
    (ds : List OutputRecord) (rX rY : SourceRecord) (rec : OutputRecord)
    (result : SourceRecord → FutureOutcome)
    (hX : rX.thumbnail_cid ∈ existingIds ds)
    (hY : rY.thumbnail_cid ∉ existingIds ds)
    (hres : result rY = .ok (some rec))
    (hid : rec.id = rY.thumbnail_cid) :
    submittedRecords (existingIds ds) [rX, rY] = [rY] ∧
    (runJob (some ds) [rY] result).1 = ds ++ [rec] ∧
    (∀ q ∈ ds, q ∈ (runJob (some ds) [rY] result).1) ∧
    (∀ i ∈ existingIds ds,
      (existingIds ((runJob (some ds) [rY] result).1)).count i
        = (existingIds ds).count i) := by
  have hfst : (runJob (some ds) [rY] result).1 = ds ++ [rec] := by
    simp only [runJob, Option.getD]
    rw [drainLoop_fst]
    simp [successResults, hres]
  refine ⟨?_, hfst, ?_, ?_⟩
  · simp [submittedRecords, List.filter_cons, hX, hY]
  · intro q hq
    rw [hfst]
    exact List.mem_append_left _ hq
  · intro i hi
    rw [hfst]
    have hne : i ≠ rec.id := by
      rw [hid]
      intro hcontra
      exact hY (hcontra ▸ hi)
    simp only [existingIds, List.map_append, List.map_cons, List.map_nil]
    rw [List.count_append]
    have h0 : List.count i [rec.id] = 0 :=
      List.count_eq_zero.mpr (by simp [hne])
    rw [h0]
    omega

/-- Witness for C3 at a concrete prior document containing X and a source
with X and the new Y. -/
theorem resume_skips_existing_and_appends_new_witness :
    (rowX.thumbnail_cid ∈ existingIds dsX ∧ rowY.thumbnail_cid ∉ existingIds dsX ∧
     resultXY rowY = .ok (some recY) ∧ recY.id = rowY.thumbnail_cid) ∧
    submittedRecords (existingIds dsX) [rowX, rowY] = [rowY] ∧
    (runJob (some dsX) [rowY] resultXY).1 = dsX ++ [recY] :=
  ⟨⟨by decide, by decide, rfl, rfl⟩,
   (resume_skips_existing_and_appends_new dsX rowX rowY recY resultXY
      (by decide) (by decide) rfl rfl).1,
   (resume_skips_existing_and_appends_new dsX rowX rowY recY resultXY
      (by decide) (by decide) rfl rfl).2.1⟩


/-- Helper: the length of a filterMap over a list in which exactly the
occurrences of C are mapped to none. -/
lemma filterMap_length_except (g : SourceRecord → Option OutputRecord)
    (C : SourceRecord) :
    ∀ l : List SourceRecord, (∀ r ∈ l, r ≠ C → g r ≠ none) → g C = none →
      (l.filterMap g).length = l.length - l.count C := by
  intro l
  induction l with
  | nil => intro _ _; rfl
  | cons a t ih =>
    intro h hC
    have iht := ih (fun r hr hne => h r (List.mem_cons_of_mem a hr) hne) hC
    cases hg : g a with
    | none =>
      have ha : a = C := by
        by_contra hne
        exact h a (List.mem_cons_self a t) hne hg
      subst ha
      rw [List.filterMap_cons_none hg, iht, List.length_cons, List.count_cons_self]
      have := List.count_le_length a t
      omega
    | some b =>
      have hne : C ≠ a := by
        intro he
        rw [← he, hC] at hg
        cases hg
      rw [List.filterMap_cons_some hg, List.length_cons, iht, List.length_cons,
        List.count_cons_of_ne hne]
      have := List.count_le_length C t
      omega

/-- C6: with no prior document and one row C whose future fails (a None
result or a caught exception) while every other row succeeds, the run
completes with a final dataset holding exactly one record per succeeding
row — none of them carrying the identifier of C — and one record for each
succeeding row is present. -/
theorem per_record_failure_is_isolated
    (rows order : List SourceRecord) (C : SourceRecord)
    (result : SourceRecord → FutureOutcome)
    (hperm : order.Perm rows)
    (hC : C ∈ rows)
    (hcids : (rows.map (·.thumbnail_cid)).Nodup)
    (hfail : result C = .ok none ∨ result C = .error ())
    (hsucc : ∀ r ∈ rows, r ≠ C → ∃ q, result r = .ok (some q) ∧ q.id = r.thumbnail_cid) :
    (runJob none order result).1.length = rows.length - 1 ∧
    (∀ q ∈ (runJob none order result).1, q.id ≠ C.thumbnail_cid) ∧
    (∀ r ∈ rows, r ≠ C → ∃ q ∈ (runJob none order result).1, q.id = r.thumbnail_cid) := by
  have hfinal : (runJob none order result).1
      = order.filterMap (fun r => match result r with
          | .ok (some q) => some q
          | _ => none) := by
    simp only [runJob, Option.getD]
    rw [drainLoop_fst]
    simp only [successResults, List.filterMap_map, List.nil_append]
    rfl
  have hgC : (match result C with
      | .ok (some q) => some q
      | _ => none) = (none : Option OutputRecord) := by
    rcases hfail with h | h <;> rw [h]
  have hgsome : ∀ r ∈ order, r ≠ C →
      (match result r with
        | .ok (some q) => some q
        | _ => none) ≠ (none : Option OutputRecord) := by
    intro r hr hne
    obtain ⟨q, hq, _⟩ := hsucc r (hperm.mem_iff.mp hr) hne
    rw [hq]
    exact Option.some_ne_none q
  refine ⟨?_, ?_, ?_⟩
  · rw [hfinal, filterMap_length_except _ C order hgsome hgC, hperm.length_eq,
      hperm.count_eq]
    rw [List.count_eq_one_of_mem (hcids.of_map _) hC]
  · intro q hq
    rw [hfinal] at hq
    obtain ⟨r, hr, hgr⟩ := List.mem_filterMap.mp hq
    by_cases hne : r = C
    · subst hne
      rw [hgC] at hgr
      cases hgr
    · obtain ⟨q2, hq2, hid⟩ := hsucc r (hperm.mem_iff.mp hr) hne
      rw [hq2] at hgr
      have hqq : q2 = q := by
        simpa using hgr
      intro hcontra
      apply hne
      refine List.inj_on_of_nodup_map hcids (hperm.mem_iff.mp hr) hC ?_
      rw [← hid, hqq, hcontra]
  · intro r hr hne
    obtain ⟨q, hq, hid⟩ := hsucc r hr hne
    refine ⟨q, ?_, hid⟩
    rw [hfinal]
    exact List.mem_filterMap.mpr ⟨r, hperm.mem_iff.mpr hr, by rw [hq]⟩

/-- Witness for C6: five concrete rows, completion in reverse order, cid c
failing; the final dataset has 4 records. -/
theorem per_record_failure_is_isolated_witness :
    (rows5.reverse.Perm rows5 ∧ rowC ∈ rows5 ∧
     (rows5.map (·.thumbnail_cid)).Nodup ∧
     (result5 rowC = .ok none ∨ result5 rowC = .error ())) ∧
    (runJob none rows5.reverse result5).1.length = rows5.length - 1 :=
  ⟨⟨rows5.reverse_perm, by decide, by decide, Or.inl rfl⟩,
   (per_record_failure_is_isolated rows5 rows5.reverse rowC result5
      rows5.reverse_perm (by decide) (by decide) (Or.inl rfl)
      (by
        intro r hr hne
        simp only [rows5, List.mem_cons, List.not_mem_nil, or_false] at hr
        rcases hr with rfl | rfl | rfl | rfl | rfl
        · exact ⟨⟨"a", "a" ++ ".jpg", []⟩, rfl, rfl⟩
        · exact ⟨⟨"b", "b" ++ ".jpg", []⟩, rfl, rfl⟩
        · exact absurd rfl hne
        · exact ⟨⟨"d", "d" ++ ".jpg", []⟩, rfl, rfl⟩
        · exact ⟨⟨"e", "e" ++ ".jpg", []⟩, rfl, rfl⟩)).1⟩

/-- Helper: when process_group produces a record, that record is the cid
with the saved filename and the built conversations, and the image
directory gained exactly that file. -/
lemma process_group_some (responses : Nat → HttpResponse) (jitter : Nat → ℚ)
    (files : List String) (cid : String) (actions : List String)
    (rec : OutputRecord) (files2 : List String)
    (h : process_group responses jitter files cid actions = (some rec, files2)) :
    rec = ⟨cid, save_image files cid, buildConversations actions⟩ ∧
    files2 = files ++ [save_image files cid] := by
  simp only [process_group] at h
  cases hc : (fetch_ipfs_image_exponential_backoff responses jitter cid 10 2 30).content with
  | none => rw [hc] at h; simp at h
  | some bytes =>
    simp only [hc] at h
    by_cases hb : bytes = []
    · rw [if_pos hb] at h; simp at h
    · rw [if_neg hb] at h
      simp only [Prod.mk.injEq, Option.some.injEq] at h
      exact ⟨h.1.symm, h.2.symm⟩

/-- C8: in the conversational shape, the first (highest-confidence) label is
the answer turn to the most-certain-action prompt; with no further labels
the conversation has just those two turns, and with further labels a single
follow-up answer joins at most 3 of the remaining labels (so labels beyond
the first four never enter the record). -/
theorem conversation_uses_first_label_and_caps_secondary
    (responses : Nat → HttpResponse) (jitter : Nat → ℚ) (files : List String)
    (cid : String) (a : String) (rest : List String)
    (rec : OutputRecord) (files2 : List String)
    (h : process_group responses jitter files cid (a :: rest) = (some rec, files2)) :
    rec.conversations.get? 1 = some ⟨"gpt", a⟩ ∧
    (rest = [] → rec.conversations.length = 2) ∧
    (rest ≠ [] → rec.conversations.get? 3
        = some ⟨"gpt", String.intercalate ", " (rest.take 3) ++ " (lower confidence)"⟩ ∧
      rec.conversations.length = 4) := by
  obtain ⟨hrec, -⟩ := process_group_some responses jitter files cid (a :: rest) rec files2 h
  subst hrec
  by_cases hrest : rest = []
  · subst hrest
    refine ⟨by simp [buildConversations], fun _ => by simp [buildConversations], ?_⟩
    intro hcontra
    exact absurd rfl hcontra
  · refine ⟨?_, fun hcontra => absurd hcontra hrest, fun _ => ⟨?_, ?_⟩⟩ <;>
      simp [buildConversations, hrest]

/-- C9: a 200 response with an empty body makes the fetcher return the empty
byte string, which process_group treats exactly like a failed fetch: no file
is saved, no record is produced, and the drain loop persists nothing for
such a result. -/
theorem empty_body_treated_as_failure
    (responses : Nat → HttpResponse) (jitter : Nat → ℚ) (files : List String)
    (cid : String) (actions : List String)
    (h : responses 0 = .status 200 []) :
    (fetch_ipfs_image_exponential_backoff responses jitter cid 10 2 30).content
        = some [] ∧
    process_group responses jitter files cid actions = (none, files) ∧
    (∀ ds r, drainLoop ds [(r, Except.ok none)] = (ds, [])) := by
  have hc : (fetch_ipfs_image_exponential_backoff responses jitter cid 10 2 30).content
      = some [] := by
    show (fetchAux responses jitter 2 30 10 0).content = some []
    rw [show (10 : Nat) = 9 + 1 from rfl]
    simp only [fetchAux, h]
    norm_num
  refine ⟨hc, ?_, ?_⟩
  · simp only [process_group]
    rw [hc]
    simp
  · intro ds r
    simp [drainLoop]

/-- Witness for C9 at the concrete empty-body environment. -/
theorem empty_body_treated_as_failure_witness :
    respEmpty200 0 = .status 200 [] ∧
    process_group respEmpty200 jitter0 [] "c" ["a"] = (none, []) :=
  ⟨rfl, (empty_body_treated_as_failure respEmpty200 jitter0 [] "c" ["a"] rfl).2.1⟩

/-- C10: every record process_group produces has conversations that
alternate human and gpt turns starting from a human turn whose value begins
with the image tag; the list has 0, 2 or 4 turns according to whether there
are no labels, one label, or several labels — and with no labels a record is
still produced. -/
theorem conversations_alternate_with_image_tag
    (responses : Nat → HttpResponse) (jitter : Nat → ℚ) (files : List String)
    (cid : String) (actions : List String)
    (rec : OutputRecord) (files2 : List String)
    (h : process_group responses jitter files cid actions = (some rec, files2)) :
    rec.conversations.length
        = (if actions = [] then 0 else if actions.length = 1 then 2 else 4) ∧
    rec.conversations.map (fun t => t.«from»)
        = (if actions = [] then []
           else if actions.length = 1 then ["human", "gpt"]
           else ["human", "gpt", "human", "gpt"]) ∧
    (∀ t, rec.conversations.get? 0 = some t → t.value.take 8 = "<image>\n") := by
  obtain ⟨hrec, -⟩ := process_group_some responses jitter files cid actions rec files2 h
  subst hrec
  cases actions with
  | nil =>
    refine ⟨by simp [buildConversations], by simp [buildConversations], ?_⟩
    intro t ht
    simp [buildConversations] at ht
  | cons a rest =>
    cases rest with
    | nil =>
      refine ⟨by simp [buildConversations], by simp [buildConversations], ?_⟩
      intro t ht
      simp [buildConversations] at ht
      rw [← ht]
      decide
    | cons b rest2 =>
      refine ⟨by simp [buildConversations], by simp [buildConversations], ?_⟩
      intro t ht
      simp [buildConversations] at ht
      rw [← ht]
      decide

/-- Witness for C8 at a concrete two-label fetch that succeeds. -/
theorem conversation_uses_first_label_and_caps_secondary_witness :
    process_group respOk jitter0 [] "c" ["a", "b"]
        = (some ⟨"c", save_image [] "c", buildConversations ["a", "b"]⟩,
           [] ++ [save_image [] "c"]) ∧
    (⟨"c", save_image [] "c", buildConversations ["a", "b"]⟩
        : OutputRecord).conversations.get? 1 = some ⟨"gpt", "a"⟩ :=
  ⟨by decide,
   (conversation_uses_first_label_and_caps_secondary respOk jitter0 [] "c" "a" ["b"]
      ⟨"c", save_image [] "c", buildConversations ["a", "b"]⟩
      ([] ++ [save_image [] "c"]) (by decide)).1⟩

/-- Witness for C10 at a concrete fetch that succeeds with an empty label
list: a record is still produced and its conversation list is empty. -/
theorem conversations_alternate_with_image_tag_witness :
    process_group respOk jitter0 [] "c" []
        = (some ⟨"c", save_image [] "c", buildConversations []⟩,
           [] ++ [save_image [] "c"]) ∧
    (⟨"c", save_image [] "c", buildConversations []⟩
        : OutputRecord).conversations.length = 0 :=
  ⟨by decide,
   (conversations_alternate_with_image_tag respOk jitter0 [] "c" []
      ⟨"c", save_image [] "c", buildConversations []⟩
      ([] ++ [save_image [] "c"]) (by decide)).1⟩

/-- Helper: digitChar is injective on single decimal digits. -/
lemma digitChar_inj_lt (a b : Nat) (ha : a < 10) (hb : b < 10)
    (h : Nat.digitChar a = Nat.digitChar b) : a = b := by
  have H : ∀ x ∈ Finset.range 10, ∀ y ∈ Finset.range 10,
      Nat.digitChar x = Nat.digitChar y → x = y := by decide
  exact H a (Finset.mem_range.mpr ha) b (Finset.mem_range.mpr hb) h

/-- Helper: the digit list of a number is never empty. -/
lemma digitsRec_ne_nil (n : Nat) : digitsRec n ≠ [] := by
  rw [digitsRec]
  by_cases h : n < 10
  · simp [h]
  · simp [h]

/-- Helper: Nat.toDigitsCore with sufficient fuel computes digitsRec. -/
lemma toDigitsCore_eq_digitsRec :
    ∀ fuel n acc, n < fuel →
      Nat.toDigitsCore 10 fuel n acc = digitsRec n ++ acc := by
  intro fuel
  induction fuel with
  | zero => intro n acc h; omega
  | succ f ih =>
    intro n acc h
    by_cases hd : n / 10 = 0
    · have hn : n < 10 := by omega
      rw [digitsRec]
      simp [Nat.toDigitsCore, hd, hn, Nat.mod_eq_of_lt hn]
    · have hlt : n / 10 < f := by omega
      have hn : ¬ n < 10 := by omega
      have hstep : Nat.toDigitsCore 10 (f + 1) n acc
          = Nat.toDigitsCore 10 f (n / 10) (Nat.digitChar (n % 10) :: acc) := by
        simp [Nat.toDigitsCore, hd]
      rw [hstep, ih (n / 10) (Nat.digitChar (n % 10) :: acc) hlt]
      conv_rhs => rw [digitsRec]
      simp [hn]

/-- Helper: Nat.toDigits at base 10 equals the reference digit list. -/
lemma toDigits_eq_digitsRec (n : Nat) : Nat.toDigits 10 n = digitsRec n := by
  show Nat.toDigitsCore 10 (n + 1) n [] = digitsRec n
  rw [toDigitsCore_eq_digitsRec (n + 1) n [] (by omega), List.append_nil]

/-- Helper: the reference digit list is injective. -/
lemma digitsRec_inj (m : Nat) : ∀ n, digitsRec m = digitsRec n → m = n := by
  induction m using Nat.strong_induction_on with
  | _ m ih =>
    intro n h
    by_cases hm : m < 10 <;> by_cases hn : n < 10
    · have hm2 : digitsRec m = [Nat.digitChar m] := by rw [digitsRec]; simp [hm]
      have hn2 : digitsRec n = [Nat.digitChar n] := by rw [digitsRec]; simp [hn]
      rw [hm2, hn2] at h
      simp at h
      exact digitChar_inj_lt m n hm hn h
    · exfalso
      have hm2 : (digitsRec m).length = 1 := by rw [digitsRec]; simp [hm]
      have hn2 : 2 ≤ (digitsRec n).length := by
        have hpos := List.length_pos.mpr (digitsRec_ne_nil (n / 10))
        rw [digitsRec]
        simp [hn, List.length_append]
        omega
      rw [h] at hm2
      omega
    · exfalso
      have hn2 : (digitsRec n).length = 1 := by rw [digitsRec]; simp [hn]
      have hm2 : 2 ≤ (digitsRec m).length := by
        have hpos := List.length_pos.mpr (digitsRec_ne_nil (m / 10))
        rw [digitsRec]
        simp [hm, List.length_append]
        omega
      rw [h] at hm2
      omega
    · have hm2 : digitsRec m = digitsRec (m / 10) ++ [Nat.digitChar (m % 10)] := by
        rw [digitsRec]; simp [hm]
      have hn2 : digitsRec n = digitsRec (n / 10) ++ [Nat.digitChar (n % 10)] := by
        rw [digitsRec]; simp [hn]
      rw [hm2, hn2] at h
      obtain ⟨h1, h2⟩ := List.append_inj' h rfl
      simp at h2
      have hdiv : m / 10 = n / 10 :=
        ih (m / 10) (Nat.div_lt_self (by omega) (by norm_num)) (n / 10) h1
      have hmod : m % 10 = n % 10 :=
        digitChar_inj_lt _ _ (Nat.mod_lt _ (by norm_num)) (Nat.mod_lt _ (by norm_num)) h2
      omega

/-- Helper: two numbers with the same decimal string are equal. -/
lemma nat_repr_data_inj (m n : Nat)
    (h : (Nat.repr m).data = (Nat.repr n).data) : m = n := by
  apply digitsRec_inj m n
  rw [← toDigits_eq_digitsRec m, ← toDigits_eq_digitsRec n]
  exact h

/-- Helper: the decimal string of any number is nonempty. -/
lemma repr_length_pos (k : Nat) : 1 ≤ (Nat.repr k).length := by
  have heq : (Nat.repr k).length = (digitsRec k).length :=
    congrArg List.length (toDigits_eq_digitsRec k)
  rw [heq]
  exact List.length_pos.mpr (digitsRec_ne_nil k)

/-- Helper: for a fixed cid, distinct counters give distinct candidate
filenames. -/
lemma candidateName_injective (cid : String) :
    Function.Injective (candidateName cid) := by
  have hc0 : candidateName cid 0 = cid ++ ".jpg" := by simp [candidateName]
  have hcS : ∀ m : Nat, candidateName cid (m + 1)
      = cid ++ "_" ++ Nat.repr (m + 1) ++ ".jpg" := by
    intro m
    simp [candidateName]
  intro j k h
  cases j with
  | zero =>
    cases k with
    | zero => rfl
    | succ k =>
      exfalso
      have hl := congrArg String.length h
      rw [hc0, hcS k] at hl
      simp only [String.length_append] at hl
      have := repr_length_pos (k + 1)
      omega
  | succ j =>
    cases k with
    | zero =>
      exfalso
      have hl := congrArg String.length h
      rw [hcS j, hc0] at hl
      simp only [String.length_append] at hl
      have := repr_length_pos (j + 1)
      omega
    | succ k =>
      rw [hcS j, hcS k] at h
      have hd := congrArg String.data h
      simp only [String.data_append, List.append_assoc] at hd
      have hd2 := List.append_cancel_left hd
      have hd3 := List.append_cancel_left hd2
      obtain ⟨h5, -⟩ := List.append_inj' hd3 rfl
      have := nat_repr_data_inj (j + 1) (k + 1) h5
      omega

/-- Helper: among the first existing.length + 1 candidates at least one is
not an existing file (pigeonhole on distinct candidate names). -/
lemma exists_free_candidate (existing : List String) (cid : String) :
    ∃ j, j < existing.length + 1 ∧ candidateName cid j ∉ existing := by
  by_contra hcon
  push_neg at hcon
  have hnodup : ((List.range (existing.length + 1)).map (candidateName cid)).Nodup :=
    List.Nodup.map (candidateName_injective cid) (List.nodup_range _)
  have hsub : ∀ x ∈ (List.range (existing.length + 1)).map (candidateName cid),
      x ∈ existing := by
    intro x hx
    obtain ⟨j, hj, rfl⟩ := List.mem_map.mp hx
    exact hcon j (List.mem_range.mp hj)
  have h1 : ((List.range (existing.length + 1)).map (candidateName cid)).toFinset.card
      = existing.length + 1 := by
    rw [List.toFinset_card_of_nodup hnodup]
    simp
  have h2 : ((List.range (existing.length + 1)).map (candidateName cid)).toFinset
      ⊆ existing.toFinset := by
    intro x hx
    rw [List.mem_toFinset] at hx ⊢
    exact hsub x hx
  have h3 := Finset.card_le_card h2
  have h4 := List.toFinset_card_le existing
  omega

/-- Helper: when some candidate within the fuel is free, the save loop
returns the first free candidate. -/
lemma save_image_aux_found (existing : List String) (cid : String) :
    ∀ fuel counter,
      (∃ j, counter ≤ j ∧ j < counter + fuel ∧ candidateName cid j ∉ existing) →
      save_image_aux existing cid fuel counter ∉ existing ∧
      ∃ k, save_image_aux existing cid fuel counter = candidateName cid k ∧
        counter ≤ k ∧ ∀ j, counter ≤ j → j < k → candidateName cid j ∈ existing := by
  intro fuel
  induction fuel with
  | zero =>
    intro counter h
    obtain ⟨j, h1, h2, _⟩ := h
    omega
  | succ f ih =>
    intro counter h
    by_cases hmem : candidateName cid counter ∈ existing
    · obtain ⟨j, hj1, hj2, hj3⟩ := h
      have hjne : j ≠ counter := fun he => hj3 (he ▸ hmem)
      have hrec := ih (counter + 1) ⟨j, by omega, by omega, hj3⟩
      have hunf : save_image_aux existing cid (f + 1) counter
          = save_image_aux existing cid f (counter + 1) := by
        rw [save_image_aux, if_pos hmem]
      rw [hunf]
      refine ⟨hrec.1, ?_⟩
      obtain ⟨k, hk1, hk2, hk3⟩ := hrec.2
      refine ⟨k, hk1, by omega, ?_⟩
      intro j2 hj21 hj22
      by_cases hje : j2 = counter
      · rw [hje]; exact hmem
      · exact hk3 j2 (by omega) hj22
    · have hunf : save_image_aux existing cid (f + 1) counter
          = candidateName cid counter := by
        rw [save_image_aux, if_neg hmem]
      rw [hunf]
      refine ⟨hmem, counter, rfl, le_refl _, ?_⟩
      intro j2 hj21 hj22
      omega

/-- C7: the filename save_image picks is never one of the existing files —
it is the first free candidate, so every candidate with a smaller counter
(cid.jpg, then cid_1.jpg, cid_2.jpg, ...) already exists in the directory;
in particular a first save yields cid.jpg and a second save of the same cid
collides and yields the distinct name cid_1.jpg. -/
theorem save_image_resolves_collisions (existing : List String) (cid : String) :
    save_image existing cid ∉ existing ∧
    (∃ k, save_image existing cid = candidateName cid k ∧
      ∀ j, j < k → candidateName cid j ∈ existing) ∧
    save_image [] cid = cid ++ ".jpg" ∧
    save_image [cid ++ ".jpg"] cid = cid ++ "_" ++ "1" ++ ".jpg" ∧
    cid ++ "_" ++ "1" ++ ".jpg" ≠ cid ++ ".jpg" := by
  obtain ⟨j, hj, hfree⟩ := exists_free_candidate existing cid
  have hmain := save_image_aux_found existing cid (existing.length + 1) 0
    ⟨j, Nat.zero_le _, by omega, hfree⟩
  have hc0 : candidateName cid 0 = cid ++ ".jpg" := by simp [candidateName]
  have hc1 : candidateName cid 1 = cid ++ "_" ++ "1" ++ ".jpg" := by
    rw [candidateName, if_neg (by omega : ¬ (1 : Nat) = 0),
      show Nat.repr 1 = "1" from rfl]
  have hne : cid ++ "_" ++ "1" ++ ".jpg" ≠ cid ++ ".jpg" := by
    intro hcon
    have hlen := congrArg String.length hcon
    simp only [String.length_append] at hlen
    have e1 : ("_" : String).length = 1 := rfl
    omega
  refine ⟨hmain.1, ?_, ?_, ?_, hne⟩
  · obtain ⟨k, hk1, -, hk3⟩ := hmain.2
    exact ⟨k, hk1, fun j2 hj2 => hk3 j2 (Nat.zero_le _) hj2⟩
  · show save_image_aux [] cid 1 0 = cid ++ ".jpg"
    have e0 : save_image_aux [] cid 1 0
        = if candidateName cid 0 ∈ ([] : List String) then save_image_aux [] cid 0 1
          else candidateName cid 0 := rfl
    rw [e0, if_neg (List.not_mem_nil _), hc0]
  · show save_image_aux [cid ++ ".jpg"] cid 2 0 = cid ++ "_" ++ "1" ++ ".jpg"
    have e2 : save_image_aux [cid ++ ".jpg"] cid 2 0
        = if candidateName cid 0 ∈ [cid ++ ".jpg"] then
            save_image_aux [cid ++ ".jpg"] cid 1 1
          else candidateName cid 0 := rfl
    have e1 : save_image_aux [cid ++ ".jpg"] cid 1 1
        = if candidateName cid 1 ∈ [cid ++ ".jpg"] then
            save_image_aux [cid ++ ".jpg"] cid 0 2
          else candidateName cid 1 := rfl
    have hm0 : candidateName cid 0 ∈ [cid ++ ".jpg"] := by
      rw [hc0]
      exact List.mem_singleton.mpr rfl
    have hm1 : candidateName cid 1 ∉ [cid ++ ".jpg"] := by
      rw [hc1]
      simp only [List.mem_singleton]
      exact hne
    rw [e2, if_pos hm0, e1, if_neg hm1, hc1]
